import Mathlib

/-!
Verification development for the tech-trend-agent ingestion-and-curation
pipeline.  The definitions below are a shallow embedding of the TypeScript
sources `src/lib/search-tools.ts` (feed normalizer) and
`src/app/api/agent/route.ts` (freshness filter, reranker/deduplicator and the
route ingestion mapping).

Modelling conventions:
* Strings are modelled as Lean `String` (a wrapper of `List Char`); the
  character-level helpers work on `List Char` so that everything is
  structurally recursive and kernel-evaluable.
* JavaScript `Date` parsing (`new Date(s).getTime()`) is a host-environment
  function, not code of this repository; it is abstracted as a parameter
  `parse : String → Option Int` returning the epoch milliseconds, `none`
  standing for `NaN` (an unparseable date).  `Date.now()` is a parameter
  `now : Int` in milliseconds.
* The float expression `(now - pub) / 3600000` is modelled exactly in `ℚ`;
  for integer millisecond differences below 2^53 the IEEE comparison with
  the representable constants -0.5 and 24 agrees with the exact rational
  comparison, so no rounding behaviour is lost.
* JavaScript `toLowerCase`, `trim` and `\s`, `\b`, `\w` regex classes are
  modelled on their ASCII fragment (`Char.toLower` and so on), which is the
  fragment exercised by the pipeline data (URLs, keyword patterns, XML tags).
* Regex matching is embedded by hand for each concrete pattern of the source,
  preserving leftmost-match, laziness and greediness where observable.
  Several scanners carry an explicit fuel argument only to make the
  recursion structural; the fuel `length + 1` strictly dominates the number
  of iterations (every iteration consumes at least one character), so the
  fuel never runs out and the scanner is exactly the unbounded recursion.
-/

namespace TechTrend

/-! ### Character-level helpers -/

/-- ASCII approximation of the JavaScript `\s` class (as used by `trim` and
the `\s*` parts of the noise patterns). -/
def isJsWs (c : Char) : Bool :=
  c = ' ' || c = '\t' || c = '\n' || c = '\r' || c = '\x0b' || c = '\x0c'

/-- JavaScript `String.prototype.trim` on the ASCII fragment. -/
def trimL (cs : List Char) : List Char :=
  ((cs.dropWhile isJsWs).reverse.dropWhile isJsWs).reverse

/-- Split `cs` at the first occurrence of `pat`: returns the part strictly
before the occurrence and the part strictly after it, or `none` when `pat`
does not occur.  This is the primitive behind every lazy `([\s\S]*?)close`
capture of the source regexes. -/
def splitAtFirst (pat : List Char) : List Char → Option (List Char × List Char)
  | [] => if pat = [] then some ([], []) else none
  | c :: cs =>
    if pat.isPrefixOf (c :: cs) then some ([], (c :: cs).drop pat.length)
    else
      match splitAtFirst pat cs with
      | some (pre, post) => some (c :: pre, post)
      | none => none

/-- Consume characters up to and including the first `>` character; `none`
when no `>` occurs.  This models the `[^>]*>` part of the tag regexes (the
greedy `[^>]*` followed by a mandatory `>` consumes exactly up to the first
`>`). -/
def skipToGt : List Char → Option (List Char)
  | [] => none
  | c :: cs => if c = '>' then some cs else skipToGt cs

/-- First (leftmost) match of a regex of the shape
`openLit[^>]*>([\s\S]*?)closeLit`, returning the lazy capture, for example
`/<title[^>]*>([\s\S]*?)<\/title>/`. -/
def findTagCapture (openLit closeLit : List Char) : List Char → Option (List Char)
  | [] => none
  | c :: cs =>
    if openLit.isPrefixOf (c :: cs) then
      match skipToGt ((c :: cs).drop openLit.length) with
      | some afterGt =>
        match splitAtFirst closeLit afterGt with
        | some (content, _) => some content
        | none => findTagCapture openLit closeLit cs
      | none => findTagCapture openLit closeLit cs
    else findTagCapture openLit closeLit cs

/-- First (leftmost) match of a regex of the shape
`openLit([\s\S]*?)closeLit`, returning the lazy capture, for example
`/<pubDate>([\s\S]*?)<\/pubDate>/`. -/
def findLazyCapture (openLit closeLit : List Char) : List Char → Option (List Char)
  | [] => none
  | c :: cs =>
    if openLit.isPrefixOf (c :: cs) then
      match splitAtFirst closeLit ((c :: cs).drop openLit.length) with
      | some (content, _) => some content
      | none => findLazyCapture openLit closeLit cs
    else findLazyCapture openLit closeLit cs

/-- Global matches of `openLit([\s\S]*?)closeLit` (the `/g` item and entry
segmenters).  Each returned segment is the FULL match
`openLit ++ content ++ closeLit`, exactly what `xml.match(...)` yields.
The fuel is `length + 1`; each iteration consumes at least one character of
the scanned text, so it never runs out. -/
def tagSegmentsF (openLit closeLit : List Char) : Nat → List Char → List (List Char)
  | 0, _ => []
  | _ + 1, [] => []
  | fuel + 1, c :: cs =>
    if openLit.isPrefixOf (c :: cs) then
      match splitAtFirst closeLit ((c :: cs).drop openLit.length) with
      | some (content, rest) =>
        (openLit ++ content ++ closeLit) :: tagSegmentsF openLit closeLit fuel rest
      | none => []
    else tagSegmentsF openLit closeLit fuel cs

/-- The full matches of `/<item>([\s\S]*?)<\/item>/g`. -/
def itemSegments (cs : List Char) : List (List Char) :=
  tagSegmentsF ("<item>".data) ("</item>".data) (cs.length + 1) cs

/-- The full matches of `/<entry>([\s\S]*?)<\/entry>/g`. -/
def entrySegments (cs : List Char) : List (List Char) :=
  tagSegmentsF ("<entry>".data) ("</entry>".data) (cs.length + 1) cs

/-- Fueled worker for the global CDATA unwrapping
`.replace(/<!\[CDATA\[([\s\S]*?)\]\]>/g, "$1")`; the replacement text is not
rescanned, scanning resumes after the matched portion. -/
def stripCDataF : Nat → List Char → List Char
  | 0, cs => cs
  | _ + 1, [] => []
  | fuel + 1, c :: cs =>
    if ("<![CDATA[".data).isPrefixOf (c :: cs) then
      match splitAtFirst ("]]>".data) ((c :: cs).drop 9) with
      | some (inner, rest) => inner ++ stripCDataF fuel rest
      | none => c :: stripCDataF fuel cs
    else c :: stripCDataF fuel cs

def stripCData (cs : List Char) : List Char :=
  stripCDataF (cs.length + 1) cs

/-- Fueled worker for a global literal replacement
`.replace(/pat/g, repl)` with a nonempty literal pattern. -/
def replaceAllF (pat repl : List Char) : Nat → List Char → List Char
  | 0, cs => cs
  | _ + 1, [] => []
  | fuel + 1, c :: cs =>
    if pat.isPrefixOf (c :: cs) then
      repl ++ replaceAllF pat repl fuel ((c :: cs).drop pat.length)
    else c :: replaceAllF pat repl fuel cs

def replaceAllL (pat repl cs : List Char) : List Char :=
  replaceAllF pat repl (cs.length + 1) cs

/-- The apostrophe character produced for `&#8217;`. -/
def aposChar : Char := Char.ofNat 39

/-- The double-quote character produced for `&#8220;` and `&#8221;`. -/
def quotChar : Char := Char.ofNat 34

/-- The HTML-entity fixups applied to RSS titles, in source order:
`&amp;` → `&`, `&#8217;` → apostrophe, `&#8220;` and `&#8221;` → double
quote. -/
def entityFix (cs : List Char) : List Char :=
  replaceAllL ("&#8221;".data) [quotChar]
    (replaceAllL ("&#8220;".data) [quotChar]
      (replaceAllL ("&#8217;".data) [aposChar]
        (replaceAllL ("&amp;".data) ("&".data) cs)))

/-- ASCII lower-casing of a character list (JavaScript `toLowerCase` on the
ASCII fragment). -/
def toLowerL (cs : List Char) : List Char :=
  cs.map Char.toLower

/-- `replace(/\/$/, "")`: remove a single trailing slash. -/
def stripTrailingSlash : List Char → List Char
  | [] => []
  | [c] => if c = '/' then [] else [c]
  | c :: c2 :: cs => c :: stripTrailingSlash (c2 :: cs)

/-! ### Atom `href` link extraction

The regex `/<link[^>]*href="([^"]*)"[^>]*\/?>/` is: `<link`, a greedy run of
non-`>` characters, the literal `href="`, a capture of non-quote characters,
the closing quote, then non-`>` characters and the closing `>` (the optional
slash is itself a non-`>` character, hence subsumed).  Backtracking over the
greedy run selects the LAST position of `href="` inside the non-`>` run that
completes to a full match.
-/

def hrefLit : List Char := ("href=".data) ++ [quotChar]

/-- All captures of completing `href="..."` splits at the current `<link`
position, in left-to-right order of the split position.  A candidate
completes when the capture is closed by a quote and a `>` occurs afterwards. -/
def hrefCandidates : List Char → List (List Char)
  | [] => []
  | c :: cs =>
    if c = '>' then []
    else
      (if hrefLit.isPrefixOf (c :: cs) then
        match splitAtFirst [quotChar] ((c :: cs).drop 6) with
        | some (cap, afterQuote) =>
          match skipToGt afterQuote with
          | some _ => [cap]
          | none => []
        | none => []
      else []) ++ hrefCandidates cs

/-- Leftmost match of the Atom `href` link regex; the greedy `[^>]*` selects
the last completing candidate at the matching position. -/
def findLinkHref : List Char → Option (List Char)
  | [] => none
  | c :: cs =>
    if ("<link".data).isPrefixOf (c :: cs) then
      match (hrefCandidates ((c :: cs).drop 5)).getLast? with
      | some cap => some cap
      | none => findLinkHref cs
    else findLinkHref cs

/-! ### Feed normalizer (`search-tools.ts`) -/

/-- The normalized output of feed parsing. -/
structure FeedItem where
  title : String
  url : String
  pubDate : String
  source : String
  deriving DecidableEq, Repr

/-- RSS title: first `<title[^>]*>` capture, CDATA-unwrapped, entity-decoded,
trimmed; empty string when the regex does not match. -/
def rssTitleOf (m : List Char) : String :=
  match findTagCapture ("<title".data) ("</title>".data) m with
  | some c => ⟨trimL (entityFix (stripCData c))⟩
  | none => ""

/-- RSS link: first `<link[^>]*>` capture, trimmed; empty string when the
regex does not match. -/
def rssLinkOf (m : List Char) : String :=
  match findTagCapture ("<link".data) ("</link>".data) m with
  | some c => ⟨trimL c⟩
  | none => ""

/-- RSS pubDate: first `<pubDate>` capture, trimmed; empty string when the
regex does not match. -/
def rssPubDateOf (m : List Char) : String :=
  match findLazyCapture ("<pubDate>".data) ("</pubDate>".data) m with
  | some c => ⟨trimL c⟩
  | none => ""

/-- RSS per-item source: first `<source[^>]*>` capture, CDATA-unwrapped and
trimmed, falling back to the feed-level source name when missing or blank. -/
def rssSourceOf (m : List Char) (sourceName : String) : String :=
  match findTagCapture ("<source".data) ("</source>".data) m with
  | some c =>
    let t := trimL (stripCData c)
    if t = [] then sourceName else ⟨t⟩
  | none => sourceName

/-- The loop body of `parseRSSItems`: a segment yields an item exactly when
its processed title is nonempty; a missing link, date or per-item source
yields the empty-string (or fallback) field, never a skipped item. -/
def rssItemOf (sourceName : String) (m : List Char) : Option FeedItem :=
  if rssTitleOf m = "" then none
  else some { title := rssTitleOf m, url := rssLinkOf m, pubDate := rssPubDateOf m,
              source := rssSourceOf m sourceName }

/-- `parseRSSItems(xml, max, sourceName)`: the first `max` `<item>` segments,
each turned into a `FeedItem`; a segment is pushed only when its processed
title is nonempty. -/
def parseRSSItems (xml : String) (max : Nat) (sourceName : String) : List FeedItem :=
  ((itemSegments xml.data).take max).filterMap (rssItemOf sourceName)

/-- Atom entry title: first `<title[^>]*>` capture, CDATA-unwrapped, trimmed. -/
def atomTitleOf (m : List Char) : String :=
  match findTagCapture ("<title".data) ("</title>".data) m with
  | some c => ⟨trimL (stripCData c)⟩
  | none => ""

/-- Atom text-form link fallback `<link ...>text</link>`, trimmed. -/
def atomLinkFallback (m : List Char) : String :=
  match findTagCapture ("<link".data) ("</link>".data) m with
  | some c => ⟨trimL c⟩
  | none => ""

/-- Atom entry link: the `href="..."` form first; when it is missing or the
captured href is the empty string (falsy), the text form is used; empty
string otherwise. -/
def atomLinkOf (m : List Char) : String :=
  match findLinkHref m with
  | some cap => if cap = [] then atomLinkFallback m else ⟨cap⟩
  | none => atomLinkFallback m

/-- Atom entry date: trimmed `<updated>` capture when nonempty, else trimmed
`<published>` capture, else the empty string. -/
def atomDateOf (m : List Char) : String :=
  let u : String :=
    match findLazyCapture ("<updated>".data) ("</updated>".data) m with
    | some c => ⟨trimL c⟩
    | none => ""
  if u = "" then
    match findLazyCapture ("<published>".data) ("</published>".data) m with
    | some c => ⟨trimL c⟩
    | none => ""
  else u

/-- The loop body of `parseAtomEntries`. -/
def atomEntryOf (sourceName : String) (m : List Char) : Option FeedItem :=
  if atomTitleOf m = "" then none
  else some { title := atomTitleOf m, url := atomLinkOf m, pubDate := atomDateOf m,
              source := sourceName }

/-- `parseAtomEntries(xml, max, sourceName)`. -/
def parseAtomEntries (xml : String) (max : Nat) (sourceName : String) : List FeedItem :=
  ((entrySegments xml.data).take max).filterMap (atomEntryOf sourceName)

/-- The per-item keep predicate of `parseFeedContent`: items with a missing
pubDate or an unparseable pubDate are kept; an item with a parsed date is
kept when the date is strictly newer than the 24-hour cutoff. -/
def feedKeep (parse : String → Option Int) (now : Int) (item : FeedItem) : Bool :=
  if item.pubDate = "" then true
  else
    match parse item.pubDate with
    | none => true
    | some t => decide (t > now - 24 * 60 * 60 * 1000)

/-- `parseFeedContent(xml, maxResults, sourceName)`: RSS extraction first
(fetching `maxResults * 3` raw items), Atom extraction on the same text when
RSS recovered zero items, then the 24-hour keep filter, then the first
`maxResults` survivors in document order. -/
def parseFeedContent (parse : String → Option Int) (now : Int) (xml : String)
    (maxResults : Nat) (sourceName : String) : List FeedItem :=
  let items := parseRSSItems xml (maxResults * 3) sourceName
  let items2 :=
    if items.length = 0 then parseAtomEntries xml (maxResults * 3) sourceName else items
  (items2.filter (feedKeep parse now)).take maxResults

/-! ### Noise patterns (`route.ts`, `NOISE_PATTERNS`)

Each source regex has the shape `\b` followed by a sequence of atoms
(lowercase literals under the `i` flag, alternations `(?:a|b)`, an optional
literal `s?`, or `\s*`), some with a trailing `\b`.  The input text is
lower-cased once, mirroring the `i` flag on the ASCII fragment.  The leading
`\b` of every pattern sits before a word character, so it holds exactly when
the previous character is absent or is not a word character; the trailing
`\b` of the patterns that have one sits after a letter, so it holds exactly
when the next character is absent or is not a word character.
-/

/-- The regex `\w` class: ASCII letters, digits and underscore. -/
def isWordChar (c : Char) : Bool :=
  c.isAlpha || c.isDigit || c = '_'

/-- One atom of a noise pattern. -/
inductive NAtom where
  | lit : List Char → NAtom
  | alts : List (List Char) → NAtom
  | opt : List Char → NAtom
  | ws : NAtom
  deriving DecidableEq, Repr

/-- A noise pattern: its atoms and whether it ends with `\b`. -/
structure NPattern where
  atoms : List NAtom
  rb : Bool
  deriving DecidableEq, Repr

/-- Backtracking matcher for an atom sequence anchored at the current
position.  Each call strictly decreases `2 * cs.length + atoms.length`, so
the fuel `2 * cs.length + atoms.length + 1` never runs out and the matcher
is exactly the unbounded backtracking search. -/
def matchSeqF : Nat → List NAtom → Bool → List Char → Bool
  | 0, _, _, _ => false
  | _ + 1, [], rb, cs =>
    if rb then
      match cs with
      | [] => true
      | c :: _ => !(isWordChar c)
    else true
  | fuel + 1, NAtom.lit s :: rest, rb, cs =>
    s.isPrefixOf cs && matchSeqF fuel rest rb (cs.drop s.length)
  | fuel + 1, NAtom.alts ss :: rest, rb, cs =>
    ss.any (fun s => s.isPrefixOf cs && matchSeqF fuel rest rb (cs.drop s.length))
  | fuel + 1, NAtom.opt s :: rest, rb, cs =>
    (s.isPrefixOf cs && matchSeqF fuel rest rb (cs.drop s.length)) ||
      matchSeqF fuel rest rb cs
  | fuel + 1, NAtom.ws :: rest, rb, cs =>
    (match cs with
     | c :: cs2 => isJsWs c && matchSeqF fuel (NAtom.ws :: rest) rb cs2
     | [] => false) ||
      matchSeqF fuel rest rb cs

def matchSeq (atoms : List NAtom) (rb : Bool) (cs : List Char) : Bool :=
  matchSeqF (2 * cs.length + atoms.length + 1) atoms rb cs

/-- The leading `\b`: satisfied at the start of the text or after a
non-word character. -/
def prevOk : Option Char → Bool
  | none => true
  | some c => !(isWordChar c)

/-- Scan every start position for a match (regex `test` semantics). -/
def searchFrom (p : NPattern) : Option Char → List Char → Bool
  | _, [] => false
  | prev, c :: cs =>
    (prevOk prev && matchSeq p.atoms p.rb (c :: cs)) || searchFrom p (some c) cs

/-- `pattern.test(text)` for a noise pattern (case-insensitive). -/
def patTest (p : NPattern) (text : String) : Bool :=
  searchFrom p none (toLowerL text.data)

def patCeo : NPattern := ⟨[NAtom.lit ("ceo".data)], true⟩
def patAcquisition : NPattern := ⟨[NAtom.lit ("acquisition".data)], true⟩
def patIpo : NPattern := ⟨[NAtom.lit ("ipo".data)], true⟩
def patLayoff : NPattern := ⟨[NAtom.lit ("layoff".data)], false⟩
def patFunding : NPattern :=
  ⟨[NAtom.lit ("fund".data), NAtom.alts [("ing".data), ("raise".data)]], false⟩
def patValuation : NPattern := ⟨[NAtom.lit ("valuation".data)], true⟩
def patStockPrice : NPattern :=
  ⟨[NAtom.lit ("stock".data), NAtom.ws, NAtom.lit ("price".data)], false⟩
def patShares : NPattern :=
  ⟨[NAtom.lit ("share".data), NAtom.opt ("s".data), NAtom.ws,
    NAtom.alts [("drop".data), ("rise".data), ("fell".data), ("surge".data)]], false⟩
def patDrama : NPattern := ⟨[NAtom.lit ("drama".data)], true⟩
def patControversy : NPattern := ⟨[NAtom.lit ("controversy".data)], true⟩
def patScandal : NPattern := ⟨[NAtom.lit ("scandal".data)], true⟩
def patLawsuit : NPattern := ⟨[NAtom.lit ("lawsuit".data)], true⟩
def patRegulation : NPattern :=
  ⟨[NAtom.lit ("regulat".data), NAtom.alts [("ion".data), ("ory".data)]], true⟩
def patLobby : NPattern := ⟨[NAtom.lit ("lobby".data)], false⟩
def patPolitics : NPattern := ⟨[NAtom.lit ("politic".data), NAtom.opt ("s".data)], true⟩
def patElection : NPattern := ⟨[NAtom.lit ("election".data)], false⟩
def patBillionaire : NPattern := ⟨[NAtom.lit ("billionaire".data)], false⟩
def patRichList : NPattern :=
  ⟨[NAtom.lit ("rich".data), NAtom.ws, NAtom.lit ("list".data)], false⟩
def patNetWorth : NPattern :=
  ⟨[NAtom.lit ("net".data), NAtom.ws, NAtom.lit ("worth".data)], false⟩

/-- The `NOISE_PATTERNS` array, in source order. -/
def NOISE_PATTERNS : List NPattern :=
  [patCeo, patAcquisition, patIpo, patLayoff, patFunding,
   patValuation, patStockPrice, patShares,
   patDrama, patControversy, patScandal, patLawsuit,
   patRegulation, patLobby, patPolitics, patElection,
   patBillionaire, patRichList, patNetWorth]

/-- The `for ... if (pattern.test(text)) break` loop subtracts the penalty
exactly when SOME pattern matches. -/
def noiseMatch (text : String) : Bool :=
  NOISE_PATTERNS.any (fun p => patTest p text)

/-! ### Reranker (`route.ts`) -/

/-- The `NewsItem` interface of the route. -/
structure NewsItem where
  title : String
  source : String
  summary : String
  url : String
  relevance : Int
  publishedAt : String
  category : String
  impactLevel : Option String
  importance_score : Option Int
  target_audience : Option (List String)
  is_major_announcement : Option Bool
  technologies : Option (List String)
  primary_role : Option String
  relevant_roles : Option (List String)
  deriving DecidableEq, Repr

/-- `isWithin24Hours(dateStr)`: the empty string and the sentinel `today`
short-circuit as fresh; an unparseable date (`NaN`) is fresh; otherwise the
elapsed hours must lie in the closed interval `[-0.5, 24]`. -/
def isWithin24Hours (parse : String → Option Int) (now : Int) (dateStr : String) : Bool :=
  if dateStr = "" ∨ dateStr = "today" then true
  else
    match parse dateStr with
    | none => true
    | some pub =>
      let hoursAgo : ℚ := ((now - pub : Int) : ℚ) / (1000 * 60 * 60)
      decide (-(1 : ℚ) / 2 ≤ hoursAgo ∧ hoursAgo ≤ 24)

/-- The freshness flag computed at the top of the rerank `map`: `isFresh`
starts `true` and `isWithin24Hours` is consulted only when `publishedAt` is
neither empty nor the sentinel `today`. -/
def freshFlag (parse : String → Option Int) (now : Int) (item : NewsItem) : Bool :=
  if item.publishedAt ≠ "" ∧ item.publishedAt ≠ "today" then
    isWithin24Hours parse now item.publishedAt
  else true

/-- The impact-level bonus: critical +3, high +2, medium +1, otherwise 0. -/
def impactBonus : Option String → Int
  | some s => if s = "critical" then 3 else if s = "high" then 2 else if s = "medium" then 1 else 0
  | none => 0

/-- The impact label re-derived from the clamped score. -/
def derivedImpact (score : Int) : String :=
  if score ≥ 8 then ("high") else if score ≤ 4 then ("low") else ("medium")

/-- One step of the rerank `map`: freshness, base score (`relevance || 5`),
staleness zeroing, impact bonus, single noise penalty, clamp to `[1, 10]`,
and re-derivation of the impact label.  The second component is the
`isFresh` flag carried on the scored object. -/
def scoreItem (parse : String → Option Int) (now : Int) (item : NewsItem) :
    NewsItem × Bool :=
  let isFresh := freshFlag parse now item
  let text := item.title ++ " " ++ item.summary ++ " " ++ item.category
  let score0 : Int := if item.relevance = 0 then 5 else item.relevance
  let score1 : Int := if isFresh then score0 else 0
  let score2 : Int := score1 + impactBonus item.impactLevel
  let score3 : Int := if noiseMatch text then score2 - 3 else score2
  let score : Int := max 1 (min 10 score3)
  ({ item with relevance := score, impactLevel := some (derivedImpact score) }, isFresh)

/-- Stable insertion (descending by `relevance`): the new element comes from
earlier in the original list, so it is placed before the first element whose
relevance does not exceed it. -/
def insertDesc (x : NewsItem) : List NewsItem → List NewsItem
  | [] => [x]
  | y :: ys => if x.relevance ≥ y.relevance then x :: y :: ys else y :: insertDesc x ys

/-- Stable sort descending by `relevance`, the extensional behaviour of
`filtered.sort((a, b) => b.relevance - a.relevance)` (JavaScript `sort` is
stable, and all stable sorts under one comparator agree). -/
def sortDesc : List NewsItem → List NewsItem
  | [] => []
  | x :: xs => insertDesc x (sortDesc xs)

/-- The dedup key: `item.url?.toLowerCase().replace(/\/$/, "") || item.title`
as a character list. -/
def dedupKey (item : NewsItem) : List Char :=
  let k := stripTrailingSlash (toLowerL item.url.data)
  if k = [] then item.title.data else k

/-- The `seen`-set dedup filter: the first occurrence of each key is kept,
later duplicates are dropped. -/
def dedupFilter (seen : List (List Char)) : List NewsItem → List NewsItem
  | [] => []
  | i :: rest =>
    let k := dedupKey i
    if k ∈ seen then dedupFilter seen rest
    else i :: dedupFilter (k :: seen) rest

/-- The scored, staleness-hard-filtered, descending-sorted list, one step
before deduplication. -/
def rerankSorted (parse : String → Option Int) (now : Int) (items : List NewsItem) :
    List NewsItem :=
  sortDesc (((items.map (scoreItem parse now)).filter (fun p => p.2)).map (fun p => p.1))

/-- `rerank(items)`: score, hard-filter stale, sort descending, dedup by
canonical URL. -/
def rerank (parse : String → Option Int) (now : Int) (items : List NewsItem) :
    List NewsItem :=
  dedupFilter [] (rerankSorted parse now items)

/-- The non-scoring fields of an item (scoring fields normalized away);
used to state that re-reranking preserves the underlying items even though
it re-boosts their scores and labels. -/
def itemCore (i : NewsItem) : NewsItem :=
  { i with relevance := 0, impactLevel := none }

/-! ### Route ingestion mapping (`mappedItems` in `route.ts`) -/

/-- A loosely-typed record coming out of the Stage 2 JSON parse: any field
may be absent. -/
structure RawItem where
  title : Option String
  source : Option String
  summary : Option String
  url : Option String
  importance_score : Option Int
  relevance : Option Int
  published_at : Option String
  publishedAt : Option String
  technologies : Option (List String)
  category : Option String
  impactLevel : Option String
  is_major_announcement : Option Bool
  target_audience : Option (List String)
  primary_role : Option String
  relevant_roles : Option (List String)
  deriving DecidableEq, Repr

/-- JavaScript `a || d` for an optional string (absent and empty are falsy). -/
def orStr : Option String → String → String
  | some s, d => if s = "" then d else s
  | none, d => d

/-- JavaScript `a || d` for an optional number (absent and 0 are falsy). -/
def orNum : Option Int → Int → Int
  | some n, d => if n = 0 then d else n
  | none, d => d

/-- One element of the `parsed.map(...)` ingestion mapping; `nowStr` is the
`new Date().toISOString()` default for a missing date. -/
def mapItem (nowStr : String) (item : RawItem) : NewsItem :=
  { title := orStr item.title ("No Title")
    source := orStr item.source ("Unknown")
    summary := orStr item.summary ("")
    url := orStr item.url ("#")
    relevance := orNum item.importance_score (orNum item.relevance 5)
    publishedAt := orStr item.published_at (orStr item.publishedAt nowStr)
    category :=
      match item.technologies with
      | some (t :: _) => t
      | _ => orStr item.category ("General")
    impactLevel :=
      match item.impactLevel with
      | some s =>
        if s = "" then
          if item.is_major_announcement = some true then some ("critical") else none
        else some s
      | none =>
        if item.is_major_announcement = some true then some ("critical") else none
    importance_score := item.importance_score
    target_audience := item.target_audience
    is_major_announcement := item.is_major_announcement
    technologies := item.technologies
    primary_role := item.primary_role
    relevant_roles := item.relevant_roles }

/-- The full `mappedItems` array. -/
def mappedItems (nowStr : String) (parsed : List RawItem) : List NewsItem :=
  parsed.map (mapItem nowStr)

/-! ### Concrete fixtures used by witnesses and counterexamples -/

/-- A date-parsing environment in which every string is unparseable. -/
def pNone : String → Option Int := fun _ => none

/-- A date-parsing environment in which the single string `e` parses to the
epoch instant 0 and everything else is unparseable. -/
def pEpoch : String → Option Int := fun s => if s = "e" then some 0 else none

/-- A baseline candidate item. -/
def wBase : NewsItem :=
  { title := "t", source := "s", summary := "", url := "u", relevance := 5,
    publishedAt := "today", category := "", impactLevel := none,
    importance_score := none, target_audience := none, is_major_announcement := none,
    technologies := none, primary_role := none, relevant_roles := none }

/-- A baseline raw (pre-mapping) item with every field absent. -/
def rawBase : RawItem :=
  { title := none, source := none, summary := none, url := none,
    importance_score := none, relevance := none, published_at := none,
    publishedAt := none, technologies := none, category := none,
    impactLevel := none, is_major_announcement := none, target_audience := none,
    primary_role := none, relevant_roles := none }

/-- Two candidates whose URLs differ only by a trailing slash. -/
def wDup1 : NewsItem := { wBase with title := "D1", url := "https://x.com/a", relevance := 9 }

def wDup2 : NewsItem := { wBase with title := "D2", url := "https://x.com/a/", relevance := 6 }

/-- A candidate with raw relevance 15 and a critical impact label. -/
def wCrit15 : NewsItem := { wBase with relevance := 15, impactLevel := some ("critical") }

/-- A candidate whose text matches two noise patterns. -/
def wNoise2 : NewsItem := { wBase with title := "CEO IPO news", url := "n2", relevance := 7 }

/-- A candidate whose text matches one noise pattern. -/
def wNoise1 : NewsItem := { wBase with title := "CEO news", url := "n1", relevance := 7 }

/-- A candidate with an empty published date. -/
def wEmptyDate : NewsItem := { wBase with publishedAt := "" }

/-- A candidate with an unparseable published date. -/
def wBadDate : NewsItem := { wBase with publishedAt := "garbage" }

/-- A fixed stand-in for the `new Date().toISOString()` default string. -/
def wNowStr : String := "T"

/-- Raw items carrying the literal url `/`, which the route mapping keeps
as-is and which strips to the empty dedup key. -/
def wSlashA : RawItem :=
  { rawBase with url := some ("/"), title := some ("A"), published_at := some ("today") }

def wSlashB : RawItem :=
  { rawBase with url := some ("/"), title := some ("B"), published_at := some ("today") }

/-! ### Helper lemmas: the scoring step -/

@[simp]
theorem scoreItem_snd (parse : String → Option Int) (now : Int) (i : NewsItem) :
    (scoreItem parse now i).2 = freshFlag parse now i := rfl

theorem scoreItem_publishedAt (parse : String → Option Int) (now : Int) (i : NewsItem) :
    ((scoreItem parse now i).1).publishedAt = i.publishedAt := rfl

theorem scoreItem_dedupKey (parse : String → Option Int) (now : Int) (i : NewsItem) :
    dedupKey ((scoreItem parse now i).1) = dedupKey i := rfl

theorem freshFlag_scoreItem (parse : String → Option Int) (now : Int) (i : NewsItem) :
    freshFlag parse now ((scoreItem parse now i).1) = freshFlag parse now i := rfl

theorem itemCore_scoreItem (parse : String → Option Int) (now : Int) (i : NewsItem) :
    itemCore ((scoreItem parse now i).1) = itemCore i := rfl

theorem scoreItem_impactLevel (parse : String → Option Int) (now : Int) (i : NewsItem) :
    ((scoreItem parse now i).1).impactLevel
      = some (derivedImpact (((scoreItem parse now i).1).relevance)) := rfl

theorem scoreItem_relevance_bounds (parse : String → Option Int) (now : Int) (i : NewsItem) :
    1 ≤ ((scoreItem parse now i).1).relevance ∧ ((scoreItem parse now i).1).relevance ≤ 10 := by
  refine ⟨le_max_left 1 _, ?_⟩
  exact max_le (by norm_num) (min_le_left _ _)

theorem freshFlag_congr (parse : String → Option Int) (now : Int) {i j : NewsItem}
    (h : i.publishedAt = j.publishedAt) :
    freshFlag parse now i = freshFlag parse now j := by
  unfold freshFlag
  rw [h]

/-! ### Helper lemmas: the dedup filter -/

theorem mem_of_mem_dedupFilter {y : NewsItem} :
    ∀ (seen : List (List Char)) (l : List NewsItem), y ∈ dedupFilter seen l → y ∈ l := by
  intro seen l
  induction l generalizing seen with
  | nil => intro h; simp [dedupFilter] at h
  | cons i rest ih =>
    intro h
    by_cases hk : dedupKey i ∈ seen
    · simp only [dedupFilter, if_pos hk] at h
      exact List.mem_cons_of_mem _ (ih _ h)
    · simp only [dedupFilter, if_neg hk, List.mem_cons] at h
      rcases h with h | h
      · exact h ▸ List.mem_cons_self _ _
      · exact List.mem_cons_of_mem _ (ih _ h)

theorem dedupFilter_key_notin {y : NewsItem} :
    ∀ (seen : List (List Char)) (l : List NewsItem),
      y ∈ dedupFilter seen l → dedupKey y ∉ seen := by
  intro seen l
  induction l generalizing seen with
  | nil => intro h; simp [dedupFilter] at h
  | cons i rest ih =>
    intro h
    by_cases hk : dedupKey i ∈ seen
    · simp only [dedupFilter, if_pos hk] at h
      exact ih _ h
    · simp only [dedupFilter, if_neg hk, List.mem_cons] at h
      rcases h with h | h
      · exact h ▸ hk
      · have := ih _ h
        intro hmem
        exact this (List.mem_cons_of_mem _ hmem)

theorem dedupFilter_first {y : NewsItem} {k : List Char} :
    ∀ (seen : List (List Char)) (l : List NewsItem),
      y ∈ dedupFilter seen l → dedupKey y = k →
      ∃ l₁ l₂, l = l₁ ++ y :: l₂ ∧ ∀ z ∈ l₁, dedupKey z ≠ k := by
  intro seen l
  induction l generalizing seen with
  | nil => intro h; simp [dedupFilter] at h
  | cons i rest ih =>
    intro h hk
    by_cases hs : dedupKey i ∈ seen
    · simp only [dedupFilter, if_pos hs] at h
      have hnot : dedupKey y ∉ seen := dedupFilter_key_notin _ _ h
      obtain ⟨l₁, l₂, h1, h2⟩ := ih _ h hk
      refine ⟨i :: l₁, l₂, by simp [h1], ?_⟩
      intro z hz
      rcases List.mem_cons.mp hz with hz | hz
      · subst hz; intro he; exact hnot (hk ▸ he ▸ hs)
      · exact h2 z hz
    · simp only [dedupFilter, if_neg hs, List.mem_cons] at h
      rcases h with h | h
      · exact ⟨[], rest, by simp [h], by intro z hz; simp at hz⟩
      · have hnot : dedupKey y ∉ dedupKey i :: seen := dedupFilter_key_notin _ _ h
        obtain ⟨l₁, l₂, h1, h2⟩ := ih _ h hk
        refine ⟨i :: l₁, l₂, by simp [h1], ?_⟩
        intro z hz
        rcases List.mem_cons.mp hz with hz | hz
        · subst hz
          intro he
          exact hnot (hk ▸ he ▸ List.mem_cons_self _ _)
        · exact h2 z hz

theorem dedupFilter_countP_zero {k : List Char} :
    ∀ (seen : List (List Char)) (l : List NewsItem), k ∈ seen →
      (dedupFilter seen l).countP (fun y => decide (dedupKey y = k)) = 0 := by
  intro seen l hk
  rw [List.countP_eq_zero]
  intro y hy
  simp only [decide_eq_true_eq]
  intro he
  exact dedupFilter_key_notin _ _ hy (he ▸ hk)

theorem dedupFilter_countP_le {k : List Char} :
    ∀ (seen : List (List Char)) (l : List NewsItem),
      (dedupFilter seen l).countP (fun y => decide (dedupKey y = k)) ≤ 1 := by
  intro seen l
  induction l generalizing seen with
  | nil => simp [dedupFilter]
  | cons i rest ih =>
    by_cases hs : dedupKey i ∈ seen
    · simp only [dedupFilter, if_pos hs]
      exact ih seen
    · simp only [dedupFilter, if_neg hs, List.countP_cons]
      by_cases hik : dedupKey i = k
      · have h0 := dedupFilter_countP_zero (k := k) (dedupKey i :: seen) rest
          (hik ▸ List.mem_cons_self _ _)

        rw [h0]
        simp [hik]
      · have hne : (decide (dedupKey i = k)) = false := by simp [hik]
        rw [hne]
        simpa using ih (dedupKey i :: seen)

theorem dedupFilter_countP_eq {k : List Char} :
    ∀ (seen : List (List Char)) (l : List NewsItem), k ∉ seen →
      (∃ z ∈ l, dedupKey z = k) →
      (dedupFilter seen l).countP (fun y => decide (dedupKey y = k)) = 1 := by
  intro seen l
  induction l generalizing seen with
  | nil => intro _ h; simp at h
  | cons i rest ih =>
    intro hks ⟨z, hz, hzk⟩
    by_cases hs : dedupKey i ∈ seen
    · simp only [dedupFilter, if_pos hs]
      have hiz : z ≠ i := by
        intro he; subst he; exact hks (hzk ▸ hs)
      have hzr : z ∈ rest := by
        rcases List.mem_cons.mp hz with h | h
        · exact absurd h hiz
        · exact h
      exact ih seen hks ⟨z, hzr, hzk⟩
    · simp only [dedupFilter, if_neg hs, List.countP_cons]
      by_cases hik : dedupKey i = k
      · have h0 := dedupFilter_countP_zero (k := k) (dedupKey i :: seen) rest
          (hik ▸ List.mem_cons_self _ _)
        rw [h0]
        simp [hik]
      · have hz2 : z ∈ rest := by
          rcases List.mem_cons.mp hz with h | h
          · subst h; exact absurd hzk hik
          · exact h
        have hks2 : k ∉ dedupKey i :: seen := by
          intro h
          rcases List.mem_cons.mp h with h | h
          · exact hik h.symm
          · exact hks h
        have := ih (dedupKey i :: seen) hks2 ⟨z, hz2, hzk⟩
        have hne : (decide (dedupKey i = k)) = false := by simp [hik]
        rw [hne]
        simpa using this

theorem dedupFilter_keys_nodup :
    ∀ (seen : List (List Char)) (l : List NewsItem),
      ((dedupFilter seen l).map dedupKey).Nodup := by
  intro seen l
  induction l generalizing seen with
  | nil => simp [dedupFilter]
  | cons i rest ih =>
    by_cases hs : dedupKey i ∈ seen
    · simp only [dedupFilter, if_pos hs]
      exact ih seen
    · simp only [dedupFilter, if_neg hs, List.map_cons, List.nodup_cons]
      refine ⟨?_, ih _⟩
      intro hmem
      obtain ⟨y, hy, hyk⟩ := List.mem_map.mp hmem
      exact dedupFilter_key_notin _ _ hy (hyk ▸ List.mem_cons_self _ _)

theorem dedupFilter_eq_self :
    ∀ (seen : List (List Char)) (l : List NewsItem), (l.map dedupKey).Nodup →
      (∀ z ∈ l, dedupKey z ∉ seen) → dedupFilter seen l = l := by
  intro seen l
  induction l generalizing seen with
  | nil => intro _ _; rfl
  | cons i rest ih =>
    intro hnd hall
    have hs : dedupKey i ∉ seen := hall i (List.mem_cons_self _ _)
    simp only [dedupFilter, if_neg hs]
    congr 1
    rw [List.map_cons, List.nodup_cons] at hnd
    obtain ⟨hhead, htail⟩ := hnd
    refine ih _ htail ?_
    intro z hz
    intro hmem
    rcases List.mem_cons.mp hmem with h | h
    · exact hhead (h ▸ List.mem_map_of_mem dedupKey hz)
    · exact hall z (List.mem_cons_of_mem _ hz) h

/-! ### Helper lemmas: the stable descending sort -/

theorem insertDesc_perm (x : NewsItem) (l : List NewsItem) :
    (insertDesc x l).Perm (x :: l) := by
  induction l with
  | nil => simp [insertDesc]
  | cons y ys ih =>
    by_cases h : x.relevance ≥ y.relevance
    · simp [insertDesc, if_pos h]
    · simp only [insertDesc, if_neg h]
      exact (ih.cons y).trans (List.Perm.swap x y ys)

theorem sortDesc_perm (l : List NewsItem) : (sortDesc l).Perm l := by
  induction l with
  | nil => simp [sortDesc]
  | cons x xs ih =>
    exact (insertDesc_perm x (sortDesc xs)).trans (ih.cons x)

theorem mem_insertDesc {z x : NewsItem} {l : List NewsItem} :
    z ∈ insertDesc x l ↔ z = x ∨ z ∈ l := by
  rw [(insertDesc_perm x l).mem_iff, List.mem_cons]

theorem insertDesc_sorted {x : NewsItem} {l : List NewsItem}
    (h : l.Pairwise (fun a b => b.relevance ≤ a.relevance)) :
    (insertDesc x l).Pairwise (fun a b => b.relevance ≤ a.relevance) := by
  induction l with
  | nil => simp [insertDesc]
  | cons y ys ih =>
    rcases List.pairwise_cons.mp h with ⟨hy, hys⟩
    by_cases hc : x.relevance ≥ y.relevance
    · simp only [insertDesc, if_pos hc]
      refine List.pairwise_cons.mpr ⟨?_, h⟩
      intro b hb
      rcases List.mem_cons.mp hb with hb | hb
      · exact hb ▸ hc
      · exact le_trans (hy b hb) hc
    · simp only [insertDesc, if_neg hc]
      refine List.pairwise_cons.mpr ⟨?_, ih hys⟩
      intro b hb
      rcases mem_insertDesc.mp hb with hb | hb
      · exact hb ▸ le_of_not_le hc
      · exact hy b hb

theorem sortDesc_sorted (l : List NewsItem) :
    (sortDesc l).Pairwise (fun a b => b.relevance ≤ a.relevance) := by
  induction l with
  | nil => simp [sortDesc]
  | cons x xs ih => exact insertDesc_sorted ih

/-! ### Helper lemmas: membership in the reranked output -/

theorem mem_rerankSorted {parse : String → Option Int} {now : Int}
    {xs : List NewsItem} {y : NewsItem} :
    y ∈ rerankSorted parse now xs ↔
      ∃ x ∈ xs, freshFlag parse now x = true ∧ y = (scoreItem parse now x).1 := by
  unfold rerankSorted
  rw [(sortDesc_perm _).mem_iff]
  simp only [List.mem_map, List.mem_filter]
  constructor
  · rintro ⟨p, ⟨⟨x, hx, rfl⟩, hf⟩, rfl⟩
    exact ⟨x, hx, by simpa using hf, rfl⟩
  · rintro ⟨x, hx, hf, rfl⟩
    exact ⟨scoreItem parse now x, ⟨⟨x, hx, rfl⟩, by simpa using hf⟩, rfl⟩

theorem mem_rerank {parse : String → Option Int} {now : Int}
    {xs : List NewsItem} {y : NewsItem} (h : y ∈ rerank parse now xs) :
    ∃ x ∈ xs, freshFlag parse now x = true ∧ y = (scoreItem parse now x).1 :=
  mem_rerankSorted.mp (mem_of_mem_dedupFilter _ _ h)

/-- The survivor of each dedup key dominates the final score of every fresh
input item carrying that key. -/
theorem rerank_dominates {parse : String → Option Int} {now : Int}
    {xs : List NewsItem} {k : List Char} :
    ∀ y ∈ rerank parse now xs, dedupKey y = k →
      ∀ x ∈ xs, freshFlag parse now x = true → dedupKey x = k →
        (scoreItem parse now x).1.relevance ≤ y.relevance := by
  intro y hy hyk x hx hxf hxk
  obtain ⟨l₁, l₂, hdec, hne⟩ := dedupFilter_first _ _ hy hyk
  have hz : (scoreItem parse now x).1 ∈ rerankSorted parse now xs :=
    mem_rerankSorted.mpr ⟨x, hx, hxf, rfl⟩
  have hs := sortDesc_sorted
    (((xs.map (scoreItem parse now)).filter (fun p => p.2)).map (fun p => p.1))
  have hs2 : (rerankSorted parse now xs).Pairwise (fun a b => b.relevance ≤ a.relevance) := hs
  rw [hdec] at hs2 hz
  rcases List.mem_append.mp hz with hmem | hmem
  · exact absurd ((scoreItem_dedupKey parse now x) ▸ hxk) (hne _ hmem)
  · rcases List.mem_cons.mp hmem with hmem | hmem
    · rw [hmem]
    · have := (List.pairwise_append.mp hs2).2.1
      exact (List.pairwise_cons.mp this).1 _ hmem

/-! ### Claims -/

/-- Claim C4: for every candidate list containing two fresh items whose URLs
agree after lower-casing and stripping one trailing slash, exactly one item
with that dedup key survives reranking and its score dominates the final
score of every fresh input item with that key; the survivor is the first
occurrence of the key after the descending-score sort, and in general the
dedup key is the lower-cased, trailing-slash-stripped URL, falling back to
the raw title when the URL is empty. -/
theorem c4_dedup_by_canonical_url (parse : String → Option Int) (now : Int)
    (xs : List NewsItem) (k : List Char)
    (hk : ∃ x ∈ xs, freshFlag parse now x = true ∧ dedupKey x = k) :
    ((rerank parse now xs).countP (fun y => decide (dedupKey y = k)) = 1) ∧
    (∀ y ∈ rerank parse now xs, dedupKey y = k →
      ∃ l₁ l₂, rerankSorted parse now xs = l₁ ++ y :: l₂ ∧ ∀ z ∈ l₁, dedupKey z ≠ k) ∧
    (∀ y ∈ rerank parse now xs, dedupKey y = k →
      ∀ x ∈ xs, freshFlag parse now x = true → dedupKey x = k →
        (scoreItem parse now x).1.relevance ≤ y.relevance) ∧
    (∀ i : NewsItem, (i.url = "" → dedupKey i = i.title.data) ∧
      (stripTrailingSlash (toLowerL i.url.data) ≠ [] →
        dedupKey i = stripTrailingSlash (toLowerL i.url.data))) := by
  obtain ⟨x, hx, hxf, hxk⟩ := hk
  have hz : (scoreItem parse now x).1 ∈ rerankSorted parse now xs :=
    mem_rerankSorted.mpr ⟨x, hx, hxf, rfl⟩
  refine ⟨?_, ?_, ?_, ?_⟩
  · show (dedupFilter [] (rerankSorted parse now xs)).countP _ = 1
    exact dedupFilter_countP_eq [] _ (by simp)
      ⟨(scoreItem parse now x).1, hz, (scoreItem_dedupKey parse now x).trans hxk⟩
  · intro y hy hyk
    exact dedupFilter_first _ _ hy hyk
  · exact rerank_dominates
  · intro i
    constructor
    · intro h
      simp [dedupKey, h, toLowerL, stripTrailingSlash]
    · intro h
      simp [dedupKey, if_neg h]

/-- Claim C4 witness: the two URLs `https://x.com/a` and `https://x.com/a/`
share the dedup key; exactly one item with the key survives and it
dominates both final scores. -/
theorem c4_dedup_by_canonical_url_witness :
    ((rerank pNone 0 [wDup2, wDup1]).countP
        (fun y => decide (dedupKey y = ("https://x.com/a").data)) = 1) ∧
    (∀ y ∈ rerank pNone 0 [wDup2, wDup1], dedupKey y = ("https://x.com/a").data →
      ∃ l₁ l₂, rerankSorted pNone 0 [wDup2, wDup1] = l₁ ++ y :: l₂ ∧
        ∀ z ∈ l₁, dedupKey z ≠ ("https://x.com/a").data) ∧
    (∀ y ∈ rerank pNone 0 [wDup2, wDup1], dedupKey y = ("https://x.com/a").data →
      ∀ x ∈ [wDup2, wDup1], freshFlag pNone 0 x = true →
        dedupKey x = ("https://x.com/a").data →
          (scoreItem pNone 0 x).1.relevance ≤ y.relevance) ∧
    (∀ i : NewsItem, (i.url = "" → dedupKey i = i.title.data) ∧
      (stripTrailingSlash (toLowerL i.url.data) ≠ [] →
        dedupKey i = stripTrailingSlash (toLowerL i.url.data))) :=
  c4_dedup_by_canonical_url pNone 0 [wDup2, wDup1] (("https://x.com/a").data)
    ⟨wDup1, by decide, by decide, by decide⟩

/-- Claim C5: every item surviving the rerank carries an impact level that is
re-derived purely from its clamped final score (high iff at least 8, low iff
at most 4, otherwise medium), overwriting whatever level it arrived with; in
particular the output level is never the source-asserted `critical`. -/
theorem c5_impact_from_clamped_score (parse : String → Option Int) (now : Int)
    (xs : List NewsItem) :
    ∀ y ∈ rerank parse now xs,
      y.impactLevel = some (derivedImpact y.relevance) ∧
      y.impactLevel ≠ some ("critical") := by
  intro y hy
  obtain ⟨x, _, _, rfl⟩ := mem_rerank hy
  refine ⟨scoreItem_impactLevel parse now x, ?_⟩
  rw [scoreItem_impactLevel]
  unfold derivedImpact
  split
  · simp
  · split <;> simp

/-- Claim C5 witness at a concrete surviving item. -/
theorem c5_impact_from_clamped_score_witness :
    (scoreItem pNone 0 wBase).1.impactLevel
        = some (derivedImpact ((scoreItem pNone 0 wBase).1.relevance)) ∧
    (scoreItem pNone 0 wBase).1.impactLevel ≠ some ("critical") :=
  c5_impact_from_clamped_score pNone 0 [wBase] ((scoreItem pNone 0 wBase).1) (by decide)

/-- Claim C6: every item in the reranked output has a final relevance inside
`[1, 10]`, and every output item arises from a FRESH input item (a stale
item never appears in the output at all, whatever its score). -/
theorem c6_score_clamped_and_stale_removed (parse : String → Option Int) (now : Int)
    (xs : List NewsItem) :
    ∀ y ∈ rerank parse now xs,
      (1 ≤ y.relevance ∧ y.relevance ≤ 10) ∧
      ∃ x ∈ xs, freshFlag parse now x = true ∧ y = (scoreItem parse now x).1 := by
  intro y hy
  obtain ⟨x, hx, hf, rfl⟩ := mem_rerank hy
  exact ⟨scoreItem_relevance_bounds parse now x, x, hx, hf, rfl⟩

/-- Claim C6 witness: a candidate with raw relevance 15 and a critical-impact
bonus still reports a final relevance inside `[1, 10]`. -/
theorem c6_score_clamped_and_stale_removed_witness :
    (1 ≤ (scoreItem pNone 0 wCrit15).1.relevance ∧
      (scoreItem pNone 0 wCrit15).1.relevance ≤ 10) ∧
    ∃ x ∈ [wCrit15], freshFlag pNone 0 x = true ∧
      (scoreItem pNone 0 wCrit15).1 = (scoreItem pNone 0 x).1 :=
  c6_score_clamped_and_stale_removed pNone 0 [wCrit15]
    ((scoreItem pNone 0 wCrit15).1) (by decide)

/-- Claim C7: the noise penalty is applied exactly once.  Two items that are
identical on every scoring input (relevance, impact level, published date)
and whose texts BOTH match at least one noise pattern receive the same final
score, however many patterns each text matches; moreover the final score of
a noise-matching item subtracts the fixed penalty 3 exactly once before the
clamp. -/
theorem c7_noise_penalty_single_application (parse : String → Option Int) (now : Int)
    (i j : NewsItem)
    (hrel : i.relevance = j.relevance) (himp : i.impactLevel = j.impactLevel)
    (hpub : i.publishedAt = j.publishedAt)
    (hni : noiseMatch (i.title ++ " " ++ i.summary ++ " " ++ i.category) = true)
    (hnj : noiseMatch (j.title ++ " " ++ j.summary ++ " " ++ j.category) = true) :
    (scoreItem parse now i).1.relevance = (scoreItem parse now j).1.relevance ∧
    (scoreItem parse now i).1.relevance =
      max 1 (min 10
        ((if freshFlag parse now i = true then (if i.relevance = 0 then 5 else i.relevance)
          else 0) + impactBonus i.impactLevel - 3)) := by
  have hfr : freshFlag parse now i = freshFlag parse now j := freshFlag_congr parse now hpub
  constructor
  · simp only [scoreItem, hni, hnj, if_true, hrel, himp, hfr]
  · simp only [scoreItem, hni, if_true]

/-- Claim C7 witness: a title containing both `CEO` and `IPO` receives the
same total penalty as a title containing only `CEO`. -/
theorem c7_noise_penalty_single_application_witness :
    (scoreItem pNone 0 wNoise2).1.relevance = (scoreItem pNone 0 wNoise1).1.relevance ∧
    (scoreItem pNone 0 wNoise2).1.relevance =
      max 1 (min 10
        ((if freshFlag pNone 0 wNoise2 = true then
            (if wNoise2.relevance = 0 then 5 else wNoise2.relevance)
          else 0) + impactBonus wNoise2.impactLevel - 3)) :=
  c7_noise_penalty_single_application pNone 0 wNoise2 wNoise1
    (by decide) (by decide) (by decide) (by decide) (by decide)

/-- Claim C1 counterexample: under a date environment in which the string
`e` parses to instant 0, at current instant 86400000 ms — exactly
24h00m0s later — the freshness predicate ACCEPTS the timestamp, whereas
the claim requires a timestamp exactly 24h00m0s in the past to be
excluded. -/
theorem c1_exact_24h_is_accepted :
    pEpoch ("e") = some 0 ∧ (86400000 : Int) = 24 * (60 * 60 * 1000) ∧
    isWithin24Hours pEpoch 86400000 ("e") = true := by
  refine ⟨rfl, by norm_num, ?_⟩
  unfold isWithin24Hours pEpoch
  rw [if_neg (by simp)]
  norm_num [decide_eq_true_eq]

/-- Claim C1 as amended: for every timestamp string that parses to a valid
date (and is not one of the sentinel strings that bypass parsing), the
freshness predicate accepts it iff the elapsed time lies in the CLOSED
window from 30 minutes in the future to exactly 24 hours in the past —
both endpoints included, so a timestamp exactly 24h00m0s old is accepted,
23h59m59s is accepted, 30 minutes in the future is accepted, and 2 hours in
the future is rejected. -/
theorem c1_freshness_window_closed (parse : String → Option Int) (now pub : Int)
    (s : String) (hp : parse s = some pub) (h1 : s ≠ "") (h2 : s ≠ "today") :
    isWithin24Hours parse now s = true ↔
      (-1800000 ≤ now - pub ∧ now - pub ≤ 86400000) := by
  unfold isWithin24Hours
  rw [if_neg (not_or.mpr ⟨h1, h2⟩)]
  simp only [hp]
  rw [decide_eq_true_eq]
  have hpos : (0 : ℚ) < 1000 * 60 * 60 := by norm_num
  rw [le_div_iff₀ hpos, div_le_iff₀ hpos]
  have e1 : (-1 / 2 * (1000 * 60 * 60) : ℚ) = -1800000 := by norm_num
  have e2 : ((24 : ℚ) * (1000 * 60 * 60)) = 86400000 := by norm_num
  rw [e1, e2]
  constructor
  · rintro ⟨ha, hb⟩
    exact ⟨by exact_mod_cast ha, by exact_mod_cast hb⟩
  · rintro ⟨ha, hb⟩
    exact ⟨by exact_mod_cast ha, by exact_mod_cast hb⟩

/-- Claim C1 witness: a timestamp 23h59m59s in the past (86399000 ms) is
inside the window. -/
theorem c1_freshness_window_closed_witness :
    isWithin24Hours pEpoch 86399000 ("e") = true ↔
      (-1800000 ≤ (86399000 : Int) - 0 ∧ (86399000 : Int) - 0 ≤ 86400000) :=
  c1_freshness_window_closed pEpoch 86399000 0 ("e") (by decide) (by decide) (by decide)

/-- Claim C2 counterexample: reranking the reranked output again does NOT
reproduce it — a surviving item with impact level `medium` is re-boosted by
the impact bonus on the second pass, so its relevance changes from 5 to 6. -/
theorem c2_rerank_not_idempotent :
    rerank pNone 0 (rerank pNone 0 [wBase]) ≠ rerank pNone 0 [wBase] := by decide

/-- Claim C2 as amended: applying the reranker to its own output yields the
same underlying items (no item is dropped or added — their number is
preserved and, up to the re-computed relevance score and impact label, the
output is a permutation of the input), but it is NOT the identity: scores
are re-boosted by the impact bonus derived on the first pass, and the order
may change accordingly. -/
theorem c2_rerank_stable_up_to_rescoring (parse : String → Option Int) (now : Int)
    (xs : List NewsItem) :
    ((rerank parse now (rerank parse now xs)).map itemCore).Perm
      ((rerank parse now xs).map itemCore) ∧
    (rerank parse now (rerank parse now xs)).length = (rerank parse now xs).length := by
  have hfresh : ∀ y ∈ rerank parse now xs, freshFlag parse now y = true := by
    intro y hy
    obtain ⟨x, _, hf, rfl⟩ := mem_rerank hy
    rw [freshFlag_scoreItem]
    exact hf
  have hfilter : (((rerank parse now xs).map (scoreItem parse now)).filter (fun p => p.2))
      = (rerank parse now xs).map (scoreItem parse now) := by
    rw [List.filter_eq_self]
    intro p hp
    obtain ⟨y, hy, rfl⟩ := List.mem_map.mp hp
    simpa using hfresh y hy
  have hmm : ((((rerank parse now xs).map (scoreItem parse now)).filter
        (fun p => p.2)).map (fun p => p.1))
      = (rerank parse now xs).map (fun y => (scoreItem parse now y).1) := by
    rw [hfilter, List.map_map]
    rfl
  have hkey : (((rerank parse now xs).map (fun y => (scoreItem parse now y).1)).map dedupKey)
      = (rerank parse now xs).map dedupKey := by
    rw [List.map_map]
    exact List.map_congr_left (fun y _ => scoreItem_dedupKey parse now y)
  have hnodup0 : ((rerank parse now xs).map dedupKey).Nodup := dedupFilter_keys_nodup [] _
  have hsorted_perm :=
    sortDesc_perm ((rerank parse now xs).map (fun y => (scoreItem parse now y).1))
  have hnodup : ((sortDesc ((rerank parse now xs).map
      (fun y => (scoreItem parse now y).1))).map dedupKey).Nodup :=
    ((hsorted_perm.map dedupKey).nodup_iff).mpr (hkey ▸ hnodup0)
  have hrr : rerank parse now (rerank parse now xs)
      = sortDesc ((rerank parse now xs).map (fun y => (scoreItem parse now y).1)) := by
    show dedupFilter [] (rerankSorted parse now (rerank parse now xs)) = _
    unfold rerankSorted
    rw [hmm]
    exact dedupFilter_eq_self [] _ hnodup (by intro z _; simp)
  constructor
  · rw [hrr]
    refine ((hsorted_perm.map itemCore).trans ?_).symm.symm
    rw [List.map_map]
    exact List.Perm.of_eq (List.map_congr_left (fun y _ => itemCore_scoreItem parse now y))
  · rw [hrr, hsorted_perm.length_eq, List.length_map]

/-- Claim C3 counterexample: an item whose `publishedAt` is the empty string
and an item whose `publishedAt` is a genuinely unparseable string BOTH
survive the rerank — neither is hard-rejected, contrary to the claim. -/
theorem c3_unknown_dates_survive :
    (rerank pNone 0 [wEmptyDate]).length = 1 ∧
    (rerank pNone 0 [wBadDate]).length = 1 := by decide

/-- Claim C3 as amended: at the final reranking stage an item whose
`publishedAt` is the empty string, the sentinel `today`, or a genuinely
unparseable date string is treated as FRESH and kept; the hard rejection
applies only to items whose date parses to an instant outside the freshness
window. -/
theorem c3_unknown_dates_kept (parse : String → Option Int) (now : Int) (i : NewsItem)
    (h : i.publishedAt = "" ∨ i.publishedAt = "today" ∨ parse i.publishedAt = none) :
    freshFlag parse now i = true ∧
    rerank parse now [i] = [(scoreItem parse now i).1] := by
  have hf : freshFlag parse now i = true := by
    unfold freshFlag
    rcases h with h | h | h
    · rw [if_neg (by simp [h])]
    · rw [if_neg (by simp [h])]
    · by_cases h1 : i.publishedAt = ""
      · rw [if_neg (by simp [h1])]
      · by_cases h2 : i.publishedAt = "today"
        · rw [if_neg (by simp [h2])]
        · rw [if_pos ⟨h1, h2⟩]
          unfold isWithin24Hours
          rw [if_neg (not_or.mpr ⟨h1, h2⟩)]
          simp [h]
  refine ⟨hf, ?_⟩
  show dedupFilter [] (rerankSorted parse now [i]) = _
  unfold rerankSorted
  simp [hf, sortDesc, insertDesc, dedupFilter]

/-- Claim C3 witness at an item with an unparseable date. -/
theorem c3_unknown_dates_kept_witness :
    freshFlag pNone 0 wBadDate = true ∧
    rerank pNone 0 [wBadDate] = [(scoreItem pNone 0 wBadDate).1] :=
  c3_unknown_dates_kept pNone 0 wBadDate (Or.inr (Or.inr rfl))

/-- Claim C8 counterexample: an Atom-only text with an `<entry>` tag but an
empty title yields an EMPTY result (RSS recovers zero items, and so does the
Atom fallback, which skips title-less entries), so Atom-only XML does not
always yield non-empty results.  15 is `5 * 3`, the raw bound used by
`parseFeedContent` at `maxResults = 5`. -/
theorem c8_atom_only_can_be_empty :
    parseRSSItems ("<entry></entry>") 15 ("s") = [] ∧
    parseFeedContent pNone 0 ("<entry></entry>") 5 ("s") = [] := by decide

/-- Claim C8 as amended: the normalizer returns at most `max` items; it
draws from the RSS extraction when RSS recovers at least one item and from
the Atom extraction exactly when RSS recovers zero items, always as a
sublist (document order, never re-sorted); and Atom-only XML yields
non-empty results PROVIDED at least one extracted entry survives the
24-hour keep filter (in particular it has a nonempty title) and `max` is
positive. -/
theorem c8_feed_fallback_and_bound (parse : String → Option Int) (now : Int)
    (xml : String) (maxResults : Nat) (src : String) :
    (parseFeedContent parse now xml maxResults src).length ≤ maxResults ∧
    (parseRSSItems xml (maxResults * 3) src ≠ [] →
      (parseFeedContent parse now xml maxResults src).Sublist
        (parseRSSItems xml (maxResults * 3) src)) ∧
    (parseRSSItems xml (maxResults * 3) src = [] →
      (parseFeedContent parse now xml maxResults src).Sublist
        (parseAtomEntries xml (maxResults * 3) src)) ∧
    (parseRSSItems xml (maxResults * 3) src = [] → 0 < maxResults →
      (∃ it ∈ parseAtomEntries xml (maxResults * 3) src, feedKeep parse now it = true) →
      parseFeedContent parse now xml maxResults src ≠ []) := by
  unfold parseFeedContent
  dsimp only
  by_cases h : (parseRSSItems xml (maxResults * 3) src).length = 0
  · rw [if_pos h]
    have hnil : parseRSSItems xml (maxResults * 3) src = [] := List.length_eq_zero.mp h
    refine ⟨List.length_take_le _ _, ?_, ?_, ?_⟩
    · intro hne; exact absurd hnil hne
    · intro _
      exact (List.take_sublist _ _).trans (List.filter_sublist _)
    · rintro _ hpos ⟨it, hit, hkeep⟩
      intro hc
      rcases List.take_eq_nil_iff.mp hc with hc | hc
      · exact absurd hc (Nat.pos_iff_ne_zero.mp hpos)
      · exact absurd (List.mem_filter.mpr ⟨hit, hkeep⟩) (hc ▸ List.not_mem_nil it)
  · rw [if_neg h]
    refine ⟨List.length_take_le _ _, ?_, ?_, ?_⟩
    · intro _
      exact (List.take_sublist _ _).trans (List.filter_sublist _)
    · intro hnil
      exact absurd (congrArg List.length hnil) (by simpa using h)
    · intro hnil
      exact absurd (congrArg List.length hnil) (by simpa using h)

/-- Claim C8 witness: with one titled entry and no `<item>` tags, the Atom
fallback produces a nonempty result within the bound. -/
theorem c8_feed_fallback_and_bound_witness :
    (parseFeedContent pNone 0 ("<entry><title>T</title></entry>") 5 ("s")).length ≤ 5 ∧
    (parseRSSItems ("<entry><title>T</title></entry>") (5 * 3) ("s") ≠ [] →
      (parseFeedContent pNone 0 ("<entry><title>T</title></entry>") 5 ("s")).Sublist
        (parseRSSItems ("<entry><title>T</title></entry>") (5 * 3) ("s"))) ∧
    (parseRSSItems ("<entry><title>T</title></entry>") (5 * 3) ("s") = [] →
      (parseFeedContent pNone 0 ("<entry><title>T</title></entry>") 5 ("s")).Sublist
        (parseAtomEntries ("<entry><title>T</title></entry>") (5 * 3) ("s"))) ∧
    (parseRSSItems ("<entry><title>T</title></entry>") (5 * 3) ("s") = [] → 0 < 5 →
      (∃ it ∈ parseAtomEntries ("<entry><title>T</title></entry>") (5 * 3) ("s"),
        feedKeep pNone 0 it = true) →
      parseFeedContent pNone 0 ("<entry><title>T</title></entry>") 5 ("s") ≠ []) :=
  c8_feed_fallback_and_bound pNone 0 ("<entry><title>T</title></entry>") 5 ("s")

/-- Claim C9: the RSS normalizer is a total function (it never throws on any
input text); every emitted item has a nonempty title; among the considered
(first `max`) item segments, a segment is discarded EXACTLY when its
processed title is empty — so the number of emitted items equals the number
of considered segments with a nonempty title, and every considered segment
with a nonempty title is emitted with its (possibly empty) link, date and
fallback source fields rather than skipped; and the feed-level keep filter
treats an empty or unparseable date as a keeper. -/
theorem c9_parse_discards_only_titleless (xml : String) (max : Nat) (src : String) :
    (∀ it ∈ parseRSSItems xml max src, it.title ≠ "") ∧
    ((parseRSSItems xml max src).length
      = ((itemSegments xml.data).take max).countP (fun m => decide (rssTitleOf m ≠ ""))) ∧
    (∀ m ∈ (itemSegments xml.data).take max, rssTitleOf m ≠ "" →
      ({ title := rssTitleOf m, url := rssLinkOf m, pubDate := rssPubDateOf m,
         source := rssSourceOf m src } : FeedItem) ∈ parseRSSItems xml max src) ∧
    (∀ (parse : String → Option Int) (now : Int) (it : FeedItem),
      it.pubDate = "" ∨ parse it.pubDate = none → feedKeep parse now it = true) := by
  refine ⟨?_, ?_, ?_, ?_⟩
  · intro it hit
    obtain ⟨m, _, hm⟩ := List.mem_filterMap.mp hit
    unfold rssItemOf at hm
    by_cases h : rssTitleOf m = ""
    · rw [if_pos h] at hm
      exact absurd hm (by simp)
    · rw [if_neg h] at hm
      injection hm with hm
      rw [← hm]
      exact h
  · have key : ∀ l : List (List Char), (l.filterMap (rssItemOf src)).length
        = l.countP (fun m => decide (rssTitleOf m ≠ "")) := by
      intro l
      induction l with
      | nil => rfl
      | cons m rest ih =>
        by_cases h : rssTitleOf m = ""
        · simp [List.filterMap_cons, List.countP_cons, rssItemOf, h, ih]
        · simp [List.filterMap_cons, List.countP_cons, rssItemOf, h, ih]
    exact key _
  · intro m hm h
    exact List.mem_filterMap.mpr ⟨m, hm, by simp [rssItemOf, h]⟩
  · intro parse now it h
    unfold feedKeep
    rcases h with h | h
    · rw [if_pos h]
    · by_cases h1 : it.pubDate = ""
      · rw [if_pos h1]
      · rw [if_neg h1]
        simp [h]

/-- Claim C9 witness at a feed whose single item lacks a link and a date:
the item is emitted with empty-string fields, not skipped. -/
theorem c9_parse_discards_only_titleless_witness :
    (∀ it ∈ parseRSSItems ("<item><title>A</title></item>") 5 ("s"), it.title ≠ "") ∧
    ((parseRSSItems ("<item><title>A</title></item>") 5 ("s")).length
      = ((itemSegments ("<item><title>A</title></item>" : String).data).take 5).countP
          (fun m => decide (rssTitleOf m ≠ ""))) ∧
    (∀ m ∈ (itemSegments ("<item><title>A</title></item>" : String).data).take 5,
      rssTitleOf m ≠ "" →
      ({ title := rssTitleOf m, url := rssLinkOf m, pubDate := rssPubDateOf m,
         source := rssSourceOf m ("s") } : FeedItem)
        ∈ parseRSSItems ("<item><title>A</title></item>") 5 ("s")) ∧
    (∀ (parse : String → Option Int) (now : Int) (it : FeedItem),
      it.pubDate = "" ∨ parse it.pubDate = none → feedKeep parse now it = true) :=
  c9_parse_discards_only_titleless ("<item><title>A</title></item>") 5 ("s")

/-- Claim C10 counterexample: a raw item whose url is the literal `/` passes
through the route mapping with its url unchanged, and its dedup key IS its
title — the title-based fallback is exercised on an item that went through
the mapping, so two distinct-titled `/`-url items BOTH survive. -/
theorem c10_slash_url_uses_title_fallback :
    (mapItem wNowStr wSlashA).url = "/" ∧
    dedupKey (mapItem wNowStr wSlashA) = (mapItem wNowStr wSlashA).title.data ∧
    (rerank pNone 0 (mappedItems wNowStr [wSlashA, wSlashB])).length = 2 := by decide

/-- Claim C10 as amended: every raw candidate with a missing or empty url is
mapped to the literal url `#`, whose dedup key is `#`; hence at most one
item with dedup key `#` survives the rerank of the mapped list, and any
survivor with that key dominates the final score of every fresh mapped item
with that key.  The title-based dedup fallback is NOT exercised for those
URL-less items; it IS exercised for a mapped item whose raw url is the
literal `/` (which lower-cases and strips to the empty key). -/
theorem c10_urlless_collapse_to_hash (parse : String → Option Int) (now : Int)
    (nowStr : String) (rs : List RawItem) :
    (∀ r ∈ rs, r.url = none ∨ r.url = some ("") →
      (mapItem nowStr r).url = "#" ∧ dedupKey (mapItem nowStr r) = ("#").data) ∧
    ((rerank parse now (mappedItems nowStr rs)).countP
        (fun y => decide (dedupKey y = ("#").data)) ≤ 1) ∧
    (∀ y ∈ rerank parse now (mappedItems nowStr rs), dedupKey y = ("#").data →
      ∀ x ∈ mappedItems nowStr rs, freshFlag parse now x = true →
        dedupKey x = ("#").data → (scoreItem parse now x).1.relevance ≤ y.relevance) ∧
    (∀ r : RawItem, r.url = some ("/") →
      dedupKey (mapItem nowStr r) = (mapItem nowStr r).title.data) := by
  refine ⟨?_, ?_, ?_, ?_⟩
  · intro r _ hu
    have hurl : (mapItem nowStr r).url = "#" := by
      rcases hu with hu | hu <;> simp [mapItem, orStr, hu]
    refine ⟨hurl, ?_⟩
    simp only [dedupKey, hurl]
    rw [if_neg (by decide)]
    decide
  · show (dedupFilter [] (rerankSorted parse now (mappedItems nowStr rs))).countP _ ≤ 1
    exact dedupFilter_countP_le [] _
  · exact rerank_dominates
  · intro r hu
    have hurl : (mapItem nowStr r).url = "/" := by simp [mapItem, orStr, hu]
    simp only [dedupKey, hurl]
    rw [if_pos (by decide)]

/-- Claim C10 witness: a mapped URL-less item gets url `#` and key `#`;
the count bound holds on a concrete mapped list. -/
theorem c10_urlless_collapse_to_hash_witness :
    (∀ r ∈ [rawBase], r.url = none ∨ r.url = some ("") →
      (mapItem wNowStr r).url = "#" ∧ dedupKey (mapItem wNowStr r) = ("#").data) ∧
    ((rerank pNone 0 (mappedItems wNowStr [rawBase])).countP
        (fun y => decide (dedupKey y = ("#").data)) ≤ 1) ∧
    (∀ y ∈ rerank pNone 0 (mappedItems wNowStr [rawBase]), dedupKey y = ("#").data →
      ∀ x ∈ mappedItems wNowStr [rawBase], freshFlag pNone 0 x = true →
        dedupKey x = ("#").data → (scoreItem pNone 0 x).1.relevance ≤ y.relevance) ∧
    (∀ r : RawItem, r.url = some ("/") →
      dedupKey (mapItem wNowStr r) = (mapItem wNowStr r).title.data) :=
  c10_urlless_collapse_to_hash pNone 0 wNowStr [rawBase]

end TechTrend
